import Mathlib

/-!
Verification development for the smart wall-socket client.

This file shallowly embeds the client-side synchronization logic of the
repository (telemetry sanitization, alert aggregation, the pending-command
registry with its acknowledgment correlator, timeout and sweep semantics,
the connection-liveness monitor, and the schedule planner) and proves the
specified properties about the embedded definitions.

Modelling conventions:
* JavaScript values are modelled by the inductive type JSVal; JavaScript
  numbers (IEEE doubles) are modelled by JNum, that is, NaN, the two
  infinities, or a finite value represented exactly as a rational.
  Signed zero and the finite-precision rounding of doubles are not
  modelled; no verified claim depends on them.
* Number(string) is modelled for decimal literals (optional sign, digits,
  optional fraction) and the Infinity forms; hexadecimal and exponent
  forms are not modelled.  toLowerCase is modelled for ASCII.
* Wall-clock time is milliseconds since the epoch as a natural number,
  with fixed 86400000 ms civil days (no DST), matching the fixed-offset
  reading of the Date arithmetic in the source.
-/

namespace SmartSocket

/-- Exact rational addition that reduces in the kernel (the library
addition on Rat is irreducible there). -/
def ratAdd (a b : Rat) : Rat :=
  mkRat (a.num * (b.den : Int) + b.num * (a.den : Int)) (a.den * b.den)

/-- Exact rational subtraction that reduces in the kernel. -/
def ratSub (a b : Rat) : Rat :=
  mkRat (a.num * (b.den : Int) - b.num * (a.den : Int)) (a.den * b.den)

/-- A JavaScript number: NaN, +Infinity, -Infinity, or a finite value. -/
inductive JNum where
  | nan : JNum
  | posInf : JNum
  | negInf : JNum
  | fin : Rat → JNum
deriving DecidableEq, Repr

/-- The JavaScript strict less-than on numbers: any comparison involving
NaN is false; the infinities compare in the usual way. -/
def JNum.ltb : JNum → JNum → Bool
  | .nan, _ => false
  | _, .nan => false
  | .negInf, .negInf => false
  | .negInf, _ => true
  | _, .negInf => false
  | .posInf, _ => false
  | .fin _, .posInf => true
  | .fin a, .fin b => decide (a < b)

/-- Math.max on two numbers: NaN if either argument is NaN, otherwise
the larger argument. -/
def jsMax (a b : JNum) : JNum :=
  if a = .nan ∨ b = .nan then .nan
  else if JNum.ltb a b then b else a

/-- A JavaScript value as delivered by the store: primitive values and
structured records (plain objects).  Arrays and functions are not
modelled. -/
inductive JSVal where
  | null : JSVal
  | undefined : JSVal
  | bool : Bool → JSVal
  | num : JNum → JSVal
  | str : String → JSVal
  | obj : List (String × JSVal) → JSVal

/-- Characters removed by the implicit trimming in Number(string). -/
def isJsWhitespace (c : Char) : Bool :=
  c == ' ' || c == '\t' || c == '\n' || c == '\r'

/-- Trim leading and trailing whitespace from a character list. -/
def trimChars (cs : List Char) : List Char :=
  ((cs.dropWhile isJsWhitespace).reverse.dropWhile isJsWhitespace).reverse

/-- Numeric value of a decimal digit character. -/
def digitVal (c : Char) : Nat := c.toNat - 48

/-- Decimal digit test, stated on character codes. -/
def isDig (c : Char) : Bool := decide (48 ≤ c.toNat ∧ c.toNat ≤ 57)

/-- Value of a list of decimal digits, most significant first. -/
def decimalOfDigits (cs : List Char) : Nat :=
  cs.foldl (fun a c => 10 * a + digitVal c) 0

/-- Parse an unsigned decimal literal (digits with an optional single
decimal point; at least one digit overall) into an exact rational. -/
def parseUnsigned (cs : List Char) : Option Rat :=
  let ip := cs.takeWhile (fun c => c != '.')
  let rest := cs.dropWhile (fun c => c != '.')
  match rest with
  | [] =>
    if ip.all isDig && !ip.isEmpty then some (mkRat (decimalOfDigits ip) 1)
    else none
  | _ :: fp =>
    if ip.all isDig && fp.all isDig && (!ip.isEmpty || !fp.isEmpty)
        && !(fp.contains '.') then
      some (mkRat (decimalOfDigits ip * 10 ^ fp.length + decimalOfDigits fp)
        (10 ^ fp.length))
    else none

/-- Number(string): the empty (after trimming) string is 0, the Infinity
forms are infinite, decimal literals take their value, anything else is
NaN. -/
def strToNum (s0 : List Char) : JNum :=
  let t := trimChars s0
  if t.isEmpty then .fin 0
  else if t = "Infinity".data ∨ t = "+Infinity".data then .posInf
  else if t = "-Infinity".data then .negInf
  else
    match t with
    | '+' :: rest => ((parseUnsigned rest).map JNum.fin).getD .nan
    | '-' :: rest =>
        ((parseUnsigned rest).map (fun q => JNum.fin (mkRat (-q.num) q.den))).getD .nan
    | _ => ((parseUnsigned t).map JNum.fin).getD .nan

/-- The Number() coercion on JavaScript values. -/
def toNumber : JSVal → JNum
  | .null => .fin 0
  | .undefined => .nan
  | .bool b => .fin (if b then 1 else 0)
  | .num n => n
  | .str s => strToNum s.data
  | .obj _ => .nan

/-- JavaScript truthiness. -/
def truthy : JSVal → Bool
  | .null => false
  | .undefined => false
  | .bool b => b
  | .num .nan => false
  | .num (.fin q) => decide (q ≠ 0)
  | .num _ => true
  | .str s => !s.isEmpty
  | .obj _ => true

/-- ASCII lowering, as toLowerCase acts on ASCII characters. -/
def lowerChar (c : Char) : Char :=
  if 65 ≤ c.toNat ∧ c.toNat ≤ 90 then Char.ofNat (c.toNat + 32) else c

/-- Rendering of a number by String(); the exact digit string for finite
values is irrelevant to every verified claim. -/
def jnumRender : JNum → String
  | .nan => "NaN"
  | .posInf => "Infinity"
  | .negInf => "-Infinity"
  | .fin q => toString q.num ++ (if q.den == 1 then "" else "/" ++ toString q.den)

/-- The String() coercion on JavaScript values. -/
def jsToString : JSVal → String
  | .null => "null"
  | .undefined => "undefined"
  | .bool b => if b then "true" else "false"
  | .num n => jnumRender n
  | .str s => s
  | .obj _ => "[object Object]"

/-- Property access: absent keys read as undefined. -/
def getField (fields : List (String × JSVal)) (k : String) : JSVal :=
  (((fields.find? (fun p => p.1 == k))).map Prod.snd).getD .undefined

/-- The JavaScript or-else operator a || b. -/
def jsOr (a b : JSVal) : JSVal := if truthy a then a else b

/-- typeof v === 'object' (true for null and for records). -/
def jsTypeofObject : JSVal → Bool
  | .null => true
  | .obj _ => true
  | _ => false

/-! ## Telemetry sanitizer (validateTelemetryData in the source) -/

/-- The validated telemetry snapshot, exactly the fields built by
validateTelemetryData. -/
structure TelemetryData where
  current : JNum
  power : JNum
  voltage : JNum
  energy : JNum
  relayState : Bool
  deviceConnected : Bool
  timestamp : JNum
  heartbeat : JNum
  detectedWattage : JNum
  expectedCurrent : JNum
  currentThreshold : JNum
  scheduleActive : Bool
  scheduleStarted : Bool
  overcurrentTripped : Bool
  lastCommandId : String
  lastCommandTime : JNum
deriving DecidableEq, Repr

/-- parseNumeric from the source: null and undefined take the default,
otherwise the value is coerced with Number and NaN results take the
default. -/
def parseNumeric (value : JSVal) (defaultValue : JNum) : JNum :=
  match value with
  | .null => defaultValue
  | .undefined => defaultValue
  | v => if toNumber v = .nan then defaultValue else toNumber v

/-- parseBoolean from the source: null and undefined take the default,
booleans pass through, strings compare their toLowerCase against the
string true, numbers test strict inequality with 0, anything else takes
the default. -/
def parseBoolean (value : JSVal) (defaultValue : Bool) : Bool :=
  match value with
  | .null => defaultValue
  | .undefined => defaultValue
  | .bool b => b
  | .str s => s.data.map lowerChar == "true".data
  | .num n => !(n == .fin 0)
  | .obj _ => defaultValue

/-- parseTimestamp from the source: numeric parse with default now
(seconds), then values outside the plus-or-minus 3600 second window
around now are replaced by now. -/
def parseTimestamp (now : Rat) (value : JSVal) : JNum :=
  if (parseNumeric value (.fin now)).ltb (.fin (ratSub now 3600))
      || JNum.ltb (.fin (ratAdd now 3600)) (parseNumeric value (.fin now))
  then .fin now else parseNumeric value (.fin now)

/-- validateTelemetryData from the source.  The now parameter stands for
Date.now() / 1000 at the call.  Falsy or non-object input is rejected;
otherwise every field is sanitized as in the source. -/
def validateTelemetryData (now : Rat) (data : JSVal) : Option TelemetryData :=
  if !truthy data || !jsTypeofObject data then none
  else
    match data with
    | .obj fields => some
      { current := jsMax (.fin 0) (parseNumeric (getField fields "current") (.fin 0))
        power := jsMax (.fin 0) (parseNumeric (getField fields "power") (.fin 0))
        voltage := parseNumeric (getField fields "voltage") (.fin 230)
        energy := jsMax (.fin 0) (parseNumeric (getField fields "energy") (.fin 0))
        relayState := parseBoolean (getField fields "relayState") false
        deviceConnected := parseBoolean (getField fields "deviceConnected") false
        timestamp := parseTimestamp now (getField fields "timestamp")
        heartbeat := parseTimestamp now (getField fields "heartbeat")
        detectedWattage := jsMax (.fin 0) (parseNumeric (getField fields "detectedWattage") (.fin 0))
        expectedCurrent := jsMax (.fin 0) (parseNumeric (getField fields "expectedCurrent") (.fin 0))
        currentThreshold := jsMax (.fin 0) (parseNumeric (getField fields "currentThreshold") (.fin 10))
        scheduleActive := parseBoolean (getField fields "scheduleActive") false
        scheduleStarted := parseBoolean (getField fields "scheduleStarted") false
        overcurrentTripped := parseBoolean (getField fields "overcurrentTripped") false
        lastCommandId := jsToString (jsOr (getField fields "lastCommandId") (.str ""))
        lastCommandTime := parseNumeric (getField fields "lastCommandTime") (.fin 0) }
    | _ => none

/-! Specification-side combinators for the sanitizer, written from the
words of the spec (coerce, default on failure or null/undefined, clamp). -/

/-- Null-or-undefined test. -/
def isNullOrMissing : JSVal → Bool
  | .null => true
  | .undefined => true
  | _ => false

/-- Modelled from the spec: coerce the raw value to a number; if the
coercion fails (NaN) or the value is null or undefined, substitute the
documented default. -/
def numberOr (dflt : JNum) (raw : JSVal) : JNum :=
  let coerced := toNumber raw
  if coerced = .nan ∨ isNullOrMissing raw then dflt else coerced

/-- Modelled from the spec: clamp a field semantically required to be
non-negative to max(0, value). -/
def clampNonNeg (n : JNum) : JNum := jsMax (.fin 0) n

/-- Modelled from the spec: timestamp fields default to now and are
replaced by now when outside the plus-or-minus 3600 second sanity
window. -/
def timestampOr (now : Rat) (raw : JSVal) : JNum :=
  if (numberOr (.fin now) raw).ltb (.fin (ratSub now 3600))
      || JNum.ltb (.fin (ratAdd now 3600)) (numberOr (.fin now) raw)
  then .fin now else numberOr (.fin now) raw

/-- A number that is not NaN. -/
def JNum.notNaN (n : JNum) : Prop := n ≠ .nan

/-- A number that is neither NaN nor negative (negative infinity or a
negative finite value). -/
def JNum.nonNegative (n : JNum) : Prop :=
  n ≠ .nan ∧ n ≠ .negInf ∧ ∀ q : Rat, n = .fin q → 0 ≤ q

/-! ## Alert aggregator (validateAlertData in the source) -/

/-- A validated alert entry. -/
structure AlertData where
  type : String
  message : String
  timestamp : JNum
deriving DecidableEq, Repr

/-- Property access on a general value: only records expose fields. -/
def objGet (v : JSVal) (k : String) : JSVal :=
  match v with
  | .obj fields => getField fields k
  | _ => .undefined

/-- The filter predicate of the aggregator: the candidate is truthy, is
an object, and its type, message and timestamp properties are truthy. -/
def alertKeep (v : JSVal) : Bool :=
  truthy v && jsTypeofObject v &&
    truthy (objGet v "type") && truthy (objGet v "message") &&
    truthy (objGet v "timestamp")

/-- Signed integer from a digit run, for parseInt. -/
def parseIntCore (rest : List Char) (neg : Bool) : JNum :=
  let ds := rest.takeWhile isDig
  if ds.isEmpty then .nan
  else .fin (mkRat (if neg then -(decimalOfDigits ds : Int) else (decimalOfDigits ds : Int)) 1)

/-- parseInt on a string: skip leading whitespace, optional sign, then
the longest leading run of decimal digits; NaN when that run is empty. -/
def jsParseInt (cs : List Char) : JNum :=
  let t := cs.dropWhile isJsWhitespace
  match t with
  | '+' :: rest => parseIntCore rest false
  | '-' :: rest => parseIntCore rest true
  | _ => parseIntCore t false

/-- The construction of one alert record from a kept candidate: type and
message through String(), timestamp through parseInt for strings and
Number otherwise. -/
def mkAlert (v : JSVal) : AlertData :=
  { type := jsToString (objGet v "type")
    message := jsToString (objGet v "message")
    timestamp :=
      match objGet v "timestamp" with
      | .str s => jsParseInt s.data
      | w => toNumber w }

/-- The comparator b.timestamp - a.timestamp of the descending sort,
folded through the ECMAScript SortCompare rule that a NaN comparator
result counts as zero: this relation says that a may stay before b. -/
def alertBefore (a b : AlertData) : Bool :=
  match a.timestamp, b.timestamp with
  | .nan, _ => true
  | _, .nan => true
  | .posInf, .posInf => true
  | .negInf, .negInf => true
  | .posInf, _ => true
  | _, .posInf => false
  | .negInf, _ => false
  | _, .negInf => true
  | .fin x, .fin y => decide (y ≤ x)

/-- Alternating split used by the merge sort. -/
def splitAlt {α : Type} : List α → List α × List α
  | [] => ([], [])
  | a :: rest =>
    let p := splitAlt rest
    (a :: p.2, p.1)

/-- Fuelled stable merge: kernel-computable. -/
def mergeFuel {α : Type} (le : α → α → Bool) : Nat → List α → List α → List α
  | 0, l, r => l ++ r
  | _ + 1, [], r => r
  | _ + 1, a :: as, [] => a :: as
  | f + 1, a :: as, b :: bs =>
    if le a b then a :: mergeFuel le f as (b :: bs)
    else b :: mergeFuel le f (a :: as) bs

/-- Fuelled merge sort: kernel-computable; with fuel at least the length
of the list it is a full merge sort. -/
def msortFuel {α : Type} (le : α → α → Bool) : Nat → List α → List α
  | 0, l => l
  | f + 1, l =>
    if l.length ≤ 1 then l
    else
      let p := splitAlt l
      mergeFuel le (l.length) (msortFuel le f p.1) (msortFuel le f p.2)

/-- The sort call of the aggregator. -/
def sortAlerts (l : List AlertData) : List AlertData :=
  msortFuel alertBefore l.length l

/-- validateAlertData from the source: non-record input yields the empty
list; otherwise the record values are filtered for presence of type,
message and timestamp, mapped to alert records, sorted descending by
timestamp, and truncated to the first ten. -/
def validateAlertData (data : JSVal) : List AlertData :=
  if !truthy data || !jsTypeofObject data then []
  else
    match data with
    | .obj fields =>
      (sortAlerts (((fields.map Prod.snd).filter alertKeep).map mkAlert)).take 10
    | _ => []

/-! ## Command registry, dispatch and acknowledgment correlator -/

/-- The per-command timeout of sendCommandWithAck, in milliseconds. -/
def commandTimeoutMs : Nat := 10000

/-- The age beyond which the periodic cleanup sweep expires a pending
command, in milliseconds. -/
def sweepExpiryMs : Nat := 15000

/-- The period of the cleanup sweep, in milliseconds. -/
def sweepPeriodMs : Nat := 5000

/-- An in-flight command registration; the resolve and reject callbacks
of the source are modelled by the emitted Terminal events below. -/
structure PendingCommand where
  id : String
  type : String
  timestamp : Nat
deriving DecidableEq, Repr

/-- The pending-command registry: the entries of the Map in insertion
order. -/
abbrev Registry := List PendingCommand

/-- Map.get: the entry registered under an id. -/
def Registry.lookup (m : Registry) (id : String) : Option PendingCommand :=
  m.find? (fun p => p.id == id)

/-- Map.delete: remove the entry registered under an id. -/
def Registry.erase (m : Registry) (id : String) : Registry :=
  m.filter (fun p => p.id != id)

/-- Map.set: replace the entry in place when the key exists, otherwise
append. -/
def Registry.register (m : Registry) (p : PendingCommand) : Registry :=
  if (m.lookup p.id).isSome then
    m.map (fun q => if q.id == p.id then p else q)
  else m ++ [p]

/-- No two registry entries share an id. -/
def Registry.keysNodup (m : Registry) : Prop :=
  (m.map PendingCommand.id).Nodup

/-- A terminal event on a command handle: the first resolution or
rejection is the one the caller observes. -/
inductive Terminal where
  | resolved : String → Terminal
  | rejected : String → String → Terminal
deriving DecidableEq, Repr

/-- The id a terminal event concerns. -/
def Terminal.cid : Terminal → String
  | .resolved id => id
  | .rejected id _ => id

/-- The events that drive the registry: an acknowledgment record arriving
on the subscription (carrying its commandId), the 10 second timer of one
command firing, and the periodic cleanup sweep observing the clock. -/
inductive REvent where
  | ackArrive : String → REvent
  | timeoutFire : String → REvent
  | sweep : Nat → REvent
deriving DecidableEq, Repr

/-- One registry step.  An acknowledgment with a truthy commandId that
matches a live entry removes the entry and resolves its handle in the
same step; with no match it does nothing.  A timeout that still finds
its entry removes it and rejects the handle with the message naming the
command type.  A sweep removes and rejects as expired every entry older
than sweepExpiryMs. -/
def rstep (m : Registry) : REvent → Registry × List Terminal
  | .ackArrive cid =>
    if cid = "" then (m, [])
    else
      match m.lookup cid with
      | some _ => (m.erase cid, [.resolved cid])
      | none => (m, [])
  | .timeoutFire id =>
    match m.lookup id with
    | some p => (m.erase id, [.rejected id ("Command " ++ p.type ++ " timed out")])
    | none => (m, [])
  | .sweep now =>
    (m.filter (fun p => !(decide (now - p.timestamp > sweepExpiryMs))),
     (m.filter (fun p => decide (now - p.timestamp > sweepExpiryMs))).map
       (fun p => .rejected p.id "Command expired"))

/-- Run the registry over a list of events, accumulating terminals. -/
def rrun (m : Registry) : List REvent → Registry × List Terminal
  | [] => (m, [])
  | e :: es =>
    let s := rstep m e
    let t := rrun s.1 es
    (t.1, s.2 ++ t.2)

/-! ## Correlation-id generation (generateCommandId in the source) -/

/-- A decimal digit character from its value. -/
def digitChar : Nat → Char
  | 0 => '0'
  | 1 => '1'
  | 2 => '2'
  | 3 => '3'
  | 4 => '4'
  | 5 => '5'
  | 6 => '6'
  | 7 => '7'
  | 8 => '8'
  | 9 => '9'
  | _ + 10 => '*'

/-- Fuelled most-significant-first decimal printer. -/
def natDecAux : Nat → Nat → List Char
  | 0, _ => []
  | fuel + 1, n =>
    if n < 10 then [digitChar n]
    else natDecAux fuel (n / 10) ++ [digitChar (n % 10)]

/-- The decimal digit string of a natural number, as interpolation
renders Date.now(). -/
def natDec (n : Nat) : List Char := natDecAux (n + 1) n

/-- generateCommandId from the source: an interpolation of the
wall-clock milliseconds and a random base-36 suffix.  The two sources of
entropy are explicit parameters. -/
def generateCommandId (nowMs : Nat) (suffix : String) : String :=
  "cmd_" ++ String.mk (natDec nowMs) ++ "_" ++ suffix

/-! ## Connection liveness monitor -/

/-- Staleness bound of the connection monitor, in milliseconds. -/
def connectionStaleMs : Nat := 15000

/-- Period of the connection monitor timer, in milliseconds. -/
def connectionCheckPeriodMs : Nat := 5000

/-- The liveness state: the isConnected, lastDataReceived and
connectionRetryCount state variables. -/
structure ConnState where
  isConnected : Bool
  lastDataReceived : Nat
  retryCount : Nat
deriving DecidableEq, Repr

/-- The initial liveness state (before any telemetry). -/
def connInit : ConnState := { isConnected := false, lastDataReceived := 0, retryCount := 0 }

/-- Events of the liveness monitor: a firing of the 5 second check
timer, a telemetry update accepted by the sanitizer, and a
subscription-level error from the store. -/
inductive ConnEvent where
  | tick : Nat → ConnEvent
  | telemetryAccepted : Nat → ConnEvent
  | subscriptionError : ConnEvent
deriving DecidableEq, Repr

/-- One liveness step, exactly as the source handlers: the periodic
check disconnects when data has ever been received and the last update
is strictly older than 15000 ms; an accepted update connects, stamps the
clock and clears the retry count; a subscription error disconnects and
increments the retry count. -/
def connStep (s : ConnState) : ConnEvent → ConnState
  | .tick now =>
    if s.lastDataReceived > 0 ∧ now - s.lastDataReceived > connectionStaleMs
    then { s with isConnected := false } else s
  | .telemetryAccepted now =>
    { isConnected := true, lastDataReceived := now, retryCount := 0 }
  | .subscriptionError =>
    { s with isConnected := false, retryCount := s.retryCount + 1 }

/-- Run the liveness monitor over a list of events. -/
def connRun (s : ConnState) : List ConnEvent → ConnState
  | [] => s
  | e :: es => connRun (connStep s e) es

/-! ## Schedule planner (validateTimeFormat, parseTimeToTimestamp and
handleScheduleSet in the source) -/

/-- Milliseconds in one civil day. -/
def msPerDay : Nat := 86400000

/-- The strict HH:MM pattern of the source regex, on the trimmed
character list: hours are one digit, or 0x or 1x, or 20 to 23; minutes
are two digits the first of which is 0 to 5. -/
def timeOk : List Char → Bool
  | [h1, c, m1, m2] =>
    c == ':' && isDig h1 && (isDig m1 && decide (m1.toNat ≤ 53)) && isDig m2
  | [h1, h2, c, m1, m2] =>
    c == ':' &&
      ((decide (48 ≤ h1.toNat ∧ h1.toNat ≤ 49) && isDig h2) ||
        (h1 == '2' && decide (48 ≤ h2.toNat ∧ h2.toNat ≤ 51))) &&
      (isDig m1 && decide (m1.toNat ≤ 53)) && isDig m2
  | _ => false

/-- validateTimeFormat from the source: the trimmed input must match the
strict 24-hour HH:MM regex. -/
def validateTimeFormat (s : String) : Bool := timeOk (trimChars s.data)

/-- String.prototype.split on the colon separator. -/
def splitColonAux : List Char → List Char → List (List Char)
  | [], acc => [acc.reverse]
  | c :: rest, acc =>
    if c = ':' then acc.reverse :: splitColonAux rest []
    else splitColonAux rest (c :: acc)

/-- Split a character list at colons. -/
def splitColon (cs : List Char) : List (List Char) := splitColonAux cs []

/-- Number() restricted to the all-digit groups that the validated
format guarantees at the parse site. -/
def numOfDigitGroup (cs : List Char) : Option Nat :=
  if cs.all isDig && !cs.isEmpty then some (decimalOfDigits cs) else none

/-- The hour and minute read by cleanTime.split and Number in
parseTimeToTimestamp (extra colon groups are ignored, as destructuring
ignores them). -/
def timeParts (s : String) : Option (Nat × Nat) :=
  match splitColon (trimChars s.data) with
  | hg :: mg :: _ =>
    match numOfDigitGroup hg, numOfDigitGroup mg with
    | some h, some m => some (h, m)
    | _, _ => none
  | _ => none

/-- parseTimeToTimestamp from the source: place the wall-clock time on
the current civil day (setHours), and when that instant is not in the
future, move it one day later. -/
def parseTimeToTimestamp (now : Nat) (s : String) : Option Nat :=
  match timeParts s with
  | some (h, m) =>
    let target := now - now % msPerDay + (h * 60 + m) * 60000
    some (if target ≤ now then target + msPerDay else target)
  | none => none

/-- The rejections of the schedule planner. -/
inductive SchedError where
  | missingTimes : SchedError
  | invalidTimeFormat : SchedError
  | scheduleTooLong : SchedError
deriving DecidableEq, Repr

/-- The duration check of handleScheduleSet: a span of strictly more
than 24 hours is rejected (the source compares the real quotient of the
span by 3600000 with 24, which is the same condition). -/
def spanCheck (startTime endTime : Nat) : Except SchedError (Nat × Nat) :=
  if 24 * 3600000 < endTime - startTime then .error .scheduleTooLong
  else .ok (startTime, endTime)

/-- handleScheduleSet from the source, up to the store write: reject
when either trimmed input is empty, then when either input fails the
format check; resolve both times, add 24 hours to an end not after the
start, and reject spans longer than 24 hours.  The returned pair is the
payload written to the schedule path (in milliseconds, before the
division by 1000 of the write). -/
def handleScheduleSet (startText endText : String) (now : Nat) :
    Except SchedError (Nat × Nat) :=
  if (trimChars startText.data).isEmpty || (trimChars endText.data).isEmpty then
    .error .missingTimes
  else if !validateTimeFormat startText || !validateTimeFormat endText then
    .error .invalidTimeFormat
  else
    match parseTimeToTimestamp now startText, parseTimeToTimestamp now endText with
    | some startTime, some e0 =>
      spanCheck startTime (if e0 ≤ startTime then e0 + msPerDay else e0)
    | _, _ => .error .invalidTimeFormat

/-! ## The src/app/index.tsx variant of command sending -/

/-- The timeout of the app-variant sendCommand, in milliseconds. -/
def appCommandTimeoutMs : Nat := 10000

/-- The state of a promise: the first settlement sticks. -/
inductive PromiseState where
  | pending : PromiseState
  | resolvedUnit : PromiseState
  | rejectedMsg : String → PromiseState
deriving DecidableEq, Repr

/-- resolve(): settles a pending promise, no-op afterwards. -/
def settleResolve : PromiseState → PromiseState
  | .pending => .resolvedUnit
  | s => s

/-- reject(msg): settles a pending promise, no-op afterwards. -/
def settleReject (msg : String) : PromiseState → PromiseState
  | .pending => .rejectedMsg msg
  | s => s

/-- The joint state of the app-variant registry and of the promise
returned by one sendCommand call. -/
structure AppCmdState where
  registry : Registry
  promise : PromiseState
deriving DecidableEq, Repr

/-- sendCommand from src/app/index.tsx: register the pending command,
perform the store write; on success schedule the timeout and resolve the
promise at once; on failure delete the registration and reject. -/
def appSendCommand (id ty : String) (t0 : Nat) (writeOk : Bool) (m : Registry) :
    AppCmdState :=
  let reg1 := m.register { id := id, type := ty, timestamp := t0 }
  if writeOk then
    { registry := reg1, promise := settleResolve .pending }
  else
    { registry := reg1.erase id, promise := settleReject "write failed" .pending }

/-- The 10 second timeout callback of the app-variant sendCommand: when
the entry is still registered, delete it and reject the promise. -/
def appTimeoutFire (id ty : String) (s : AppCmdState) : AppCmdState :=
  if (s.registry.lookup id).isSome then
    { registry := s.registry.erase id
      promise := settleReject ("Command " ++ ty ++ " timed out") s.promise }
  else s

/-! ## Registry lemmas -/

theorem lookup_erase_self (m : Registry) (id : String) :
    (m.erase id).lookup id = none := by
  rw [Registry.lookup, List.find?_eq_none]
  intro p hp
  have := List.of_mem_filter hp
  simpa using this

theorem lookup_erase_ne (m : Registry) (id id' : String) (h : id ≠ id') :
    Registry.lookup (m.erase id') id = m.lookup id := by
  simp only [Registry.lookup, Registry.erase]
  induction m with
  | nil => rfl
  | cons q rest ih =>
    rw [List.filter_cons]
    cases hq : (q.id != id') with
    | false =>
      have he : q.id = id' := bne_eq_false_iff_eq.mp hq
      have hqi : ¬ ((fun p : PendingCommand => p.id == id) q = true) := by
        simp only [beq_iff_eq, he]
        exact Ne.symm h
      rw [if_neg (by simp [hq]),
        @List.find?_cons_of_neg PendingCommand (fun p => p.id == id) q rest hqi]
      exact ih
    | true =>
      rw [if_pos rfl]
      cases hqi : (q.id == id) with
      | true =>
        have hqi' : ((fun p : PendingCommand => p.id == id) q = true) := hqi
        rw [@List.find?_cons_of_pos PendingCommand (fun p => p.id == id) q
            (List.filter (fun p => p.id != id') rest) hqi',
          @List.find?_cons_of_pos PendingCommand (fun p => p.id == id) q rest hqi']
      | false =>
        have hqi' : ¬ ((fun p : PendingCommand => p.id == id) q = true) := by
          simp [hqi]
        rw [@List.find?_cons_of_neg PendingCommand (fun p => p.id == id) q
            (List.filter (fun p => p.id != id') rest) hqi',
          @List.find?_cons_of_neg PendingCommand (fun p => p.id == id) q rest hqi']
        exact ih

theorem lookup_mem (m : Registry) (id : String) (p : PendingCommand)
    (h : m.lookup id = some p) : p ∈ m ∧ p.id = id := by
  have hm := List.mem_of_find?_eq_some h
  have hp := List.find?_some h
  exact ⟨hm, by simpa using hp⟩

theorem lookup_filter_keep (m : Registry) (f : PendingCommand → Bool)
    (id : String) (p : PendingCommand)
    (h : m.lookup id = some p) (hf : f p = true) :
    Registry.lookup (m.filter f) id = some p := by
  simp only [Registry.lookup] at h ⊢
  induction m with
  | nil => simp at h
  | cons q rest ih =>
    rw [List.filter_cons]
    cases hq : (q.id == id) with
    | true =>
      have hq' : ((fun p : PendingCommand => p.id == id) q = true) := hq
      have hqp : q = p := by
        rw [@List.find?_cons_of_pos PendingCommand (fun p => p.id == id) q rest hq'] at h
        exact Option.some.inj h
      have hfq : f q = true := by rw [hqp]; exact hf
      rw [hfq, if_pos rfl,
        @List.find?_cons_of_pos PendingCommand (fun r => r.id == id) q
          (List.filter f rest) hq', hqp]
    | false =>
      have hq' : ¬ ((fun p : PendingCommand => p.id == id) q = true) := by
        simp [hq]
      have h' : List.find? (fun p => p.id == id) rest = some p := by
        rw [@List.find?_cons_of_neg PendingCommand (fun p => p.id == id) q rest hq'] at h
        exact h
      cases hfq : (f q) with
      | true =>
        rw [if_pos rfl,
          @List.find?_cons_of_neg PendingCommand (fun p => p.id == id) q
            (List.filter f rest) hq']
        exact ih h'
      | false =>
        rw [if_neg Bool.false_ne_true]
        exact ih h'

/-- The number of registry entries registered under an id. -/
def regCount (m : Registry) (id : String) : Nat :=
  List.countP (fun p => p.id == id) m

/-- The number of terminal events concerning an id. -/
def termCount (l : List Terminal) (id : String) : Nat :=
  List.countP (fun t => t.cid == id) l

theorem regCount_erase_self (m : Registry) (id : String) :
    regCount (m.erase id) id = 0 := by
  rw [regCount, List.countP_eq_zero]
  intro p hp
  have := List.of_mem_filter hp
  simpa using this

theorem regCount_erase_ne (m : Registry) (id cid : String) (h : cid ≠ id) :
    regCount (m.erase cid) id = regCount m id := by
  rw [regCount, Registry.erase, List.countP_filter]
  refine List.countP_congr ?_
  intro x _
  constructor
  · intro hx
    exact (Bool.and_eq_true _ _).mp hx |>.1
  · intro hx
    refine (Bool.and_eq_true _ _).mpr ⟨hx, ?_⟩
    have : x.id = id := by simpa using hx
    simp [this]
    exact fun e => h e.symm

theorem regCount_pos_of_lookup (m : Registry) (id : String) (p : PendingCommand)
    (h : m.lookup id = some p) : 1 ≤ regCount m id := by
  have hm := lookup_mem m id p h
  have : 0 < List.countP (fun p => p.id == id) m :=
    List.countP_pos_iff.mpr ⟨p, hm.1, by simp [hm.2]⟩
  simpa [regCount] using this

theorem countP_filter_split {α : Type} (l : List α) (p c : α → Bool) :
    List.countP p (l.filter c) + List.countP p (l.filter (fun a => !c a)) =
      List.countP p l := by
  induction l with
  | nil => rfl
  | cons a rest ih =>
    cases hc : c a <;> cases hp : p a <;>
      simp [List.filter_cons, List.countP_cons, hc, hp] <;> omega

theorem rstep_count (m : Registry) (e : REvent) (id : String) :
    termCount (rstep m e).2 id + regCount (rstep m e).1 id ≤ regCount m id := by
  cases e with
  | ackArrive cid =>
    by_cases hcid : cid = ""
    · simp [rstep, hcid, termCount]
    · rw [rstep]
      rcases h : Registry.lookup m cid with _ | p
      · simp [hcid, h, termCount]
      · simp only [hcid, h, if_neg hcid]
        by_cases hid : cid = id
        · subst hid
          have h1 := regCount_erase_self m cid
          have h2 := regCount_pos_of_lookup m cid p h
          simp [termCount, List.countP_cons, Terminal.cid]
          omega
        · have h1 := regCount_erase_ne m id cid hid
          simp [termCount, List.countP_cons, Terminal.cid, hid]
          omega
  | timeoutFire tid =>
    rw [rstep]
    rcases h : Registry.lookup m tid with _ | p
    · simp [termCount]
    · by_cases hid : tid = id
      · subst hid
        have h1 := regCount_erase_self m tid
        have h2 := regCount_pos_of_lookup m tid p h
        simp [termCount, List.countP_cons, Terminal.cid]
        omega
      · have h1 := regCount_erase_ne m id tid hid
        simp [termCount, List.countP_cons, Terminal.cid, hid]
        omega
  | sweep now =>
    have hsplit := countP_filter_split m (fun p => p.id == id)
      (fun p => decide (now - p.timestamp > sweepExpiryMs))
    rw [rstep]
    simp only [termCount, regCount, List.countP_map]
    have hcomp :
        List.countP
          ((fun t => t.cid == id) ∘ fun p => Terminal.rejected p.id "Command expired")
          (m.filter (fun p => decide (now - p.timestamp > sweepExpiryMs))) =
        List.countP (fun p => p.id == id)
          (m.filter (fun p => decide (now - p.timestamp > sweepExpiryMs))) := by
      refine List.countP_congr ?_
      intro x _
      simp [Terminal.cid]
    rw [hcomp]
    omega

theorem rrun_count (es : List REvent) (m : Registry) (id : String) :
    termCount (rrun m es).2 id + regCount (rrun m es).1 id ≤ regCount m id := by
  induction es generalizing m with
  | nil => simp [rrun, termCount]
  | cons e es ih =>
    have hstep := rstep_count m e id
    have htail := ih (rstep m e).1
    simp only [rrun, termCount, List.countP_append]
    simp only [termCount, regCount] at hstep htail ⊢
    omega

end SmartSocket

namespace SmartSocket

/-! ## Claim C1 -/

/-- C1: for every correlation id the registry resolves or rejects at
most one handle.  An acknowledgment whose commandId matches a live
pending entry resolves the handle and removes the entry in the same
step; redelivering the same acknowledgment afterwards is a no-op, and an
acknowledgment with no matching pending entry is silently ignored.
Moreover, over any event sequence, a registry holding at most one entry
for an id emits at most one terminal event for that id. -/
theorem C1_ack_resolution_idempotent :
    (∀ (m : Registry) (cid : String) (p : PendingCommand), cid ≠ "" →
      m.lookup cid = some p →
        rstep m (.ackArrive cid) = (m.erase cid, [.resolved cid]) ∧
        Registry.lookup (m.erase cid) cid = none ∧
        rstep (m.erase cid) (.ackArrive cid) = (m.erase cid, [])) ∧
    (∀ (m : Registry) (cid : String), m.lookup cid = none →
      rstep m (.ackArrive cid) = (m, [])) ∧
    (∀ (m : Registry) (es : List REvent) (id : String), regCount m id ≤ 1 →
      termCount (rrun m es).2 id ≤ 1) := by
  refine ⟨?_, ?_, ?_⟩
  · intro m cid p hne h
    have herase := lookup_erase_self m cid
    refine ⟨by rw [rstep, if_neg hne, h], herase, by rw [rstep, if_neg hne, herase]⟩
  · intro m cid h
    by_cases hcid : cid = ""
    · rw [rstep, if_pos hcid]
    · rw [rstep, if_neg hcid, h]
  · intro m es id h
    have := rrun_count es m id
    omega

/-- Witness for C1 at a concrete registry and acknowledgment. -/
theorem C1_ack_resolution_idempotent_witness :
    rstep [⟨"cmd_1_a", "RELAY_CONTROL", 0⟩] (.ackArrive "cmd_1_a") =
      ([], [.resolved "cmd_1_a"]) ∧
    Registry.lookup ([] : Registry) "cmd_1_a" = none ∧
    rstep ([] : Registry) (.ackArrive "cmd_1_a") = ([], []) ∧
    rstep [⟨"cmd_1_b", "RELAY_CONTROL", 0⟩] (.ackArrive "cmd_1_a") =
      ([⟨"cmd_1_b", "RELAY_CONTROL", 0⟩], []) ∧
    termCount
      (rrun [⟨"cmd_1_a", "RELAY_CONTROL", 0⟩]
        [.ackArrive "cmd_1_a", .ackArrive "cmd_1_a", .timeoutFire "cmd_1_a"]).2
      "cmd_1_a" ≤ 1 := by
  have h1 := C1_ack_resolution_idempotent.1 [⟨"cmd_1_a", "RELAY_CONTROL", 0⟩]
    "cmd_1_a" ⟨"cmd_1_a", "RELAY_CONTROL", 0⟩ (by decide) (by decide)
  have h2 := C1_ack_resolution_idempotent.2.1 [⟨"cmd_1_b", "RELAY_CONTROL", 0⟩]
    "cmd_1_a" (by decide)
  have h3 := C1_ack_resolution_idempotent.2.2 [⟨"cmd_1_a", "RELAY_CONTROL", 0⟩]
    [.ackArrive "cmd_1_a", .ackArrive "cmd_1_a", .timeoutFire "cmd_1_a"]
    "cmd_1_a" (by decide)
  exact ⟨h1.1, h1.2.1, h1.2.2, h2, h3⟩

end SmartSocket

namespace SmartSocket

theorem lookup_append_single (m : Registry) (p : PendingCommand)
    (h : Registry.lookup m p.id = none) :
    Registry.lookup (m ++ [p]) p.id = some p := by
  simp only [Registry.lookup] at h ⊢
  induction m with
  | nil =>
    exact @List.find?_cons_of_pos PendingCommand (fun q => q.id == p.id) p [] (by simp)
  | cons q rest ih =>
    rw [List.find?_eq_none] at h
    have hq : ¬ ((fun q : PendingCommand => q.id == p.id) q = true) :=
      h q (List.mem_cons_self q rest)
    rw [List.cons_append,
      @List.find?_cons_of_neg PendingCommand (fun q => q.id == p.id) q (rest ++ [p]) hq]
    refine ih ?_
    rw [List.find?_eq_none]
    intro x hx
    exact h x (List.mem_cons_of_mem q hx)

theorem lookup_register (m : Registry) (p : PendingCommand) :
    Registry.lookup (m.register p) p.id = some p := by
  rw [Registry.register]
  cases h : (Registry.lookup m p.id).isSome with
  | false =>
    rw [if_neg (by simp [h])]
    exact lookup_append_single m p (by
      rcases hl : Registry.lookup m p.id with _ | q
      · rfl
      · rw [hl] at h; simp at h)
  | true =>
    rw [if_pos rfl]
    simp only [Registry.lookup] at h ⊢
    induction m with
    | nil => simp at h
    | cons q rest ih =>
      cases hq : (q.id == p.id) with
      | true =>
        rw [List.map_cons, if_pos hq]
        exact @List.find?_cons_of_pos PendingCommand (fun r => r.id == p.id) p
          (rest.map (fun q => if q.id == p.id then p else q)) (by simp)
      | false =>
        have hq' : ¬ ((fun r : PendingCommand => r.id == p.id) q = true) := by
          simp [hq]
        rw [@List.find?_cons_of_neg PendingCommand (fun r => r.id == p.id) q rest hq'] at h
        rw [List.map_cons, if_neg (by simp [hq]),
          @List.find?_cons_of_neg PendingCommand (fun r => r.id == p.id) q
            (rest.map (fun q => if q.id == p.id then p else q)) hq']
        exact ih h

/-! ## Claim C10 -/

/-- C10: in the src/app/index.tsx variant, a sendCommand whose store
write succeeds resolves its promise at once, without waiting for any
acknowledgment; the pending entry nevertheless remains registered, and
when the 10 second timeout later fires it removes the entry while its
reject leaves the already-resolved promise unchanged. -/
theorem C10_appSendCommand_resolves_without_ack :
    appCommandTimeoutMs = 10000 ∧
    ∀ (id ty : String) (t0 : Nat) (m : Registry),
      (appSendCommand id ty t0 true m).promise = .resolvedUnit ∧
      Registry.lookup (appSendCommand id ty t0 true m).registry id =
        some { id := id, type := ty, timestamp := t0 } ∧
      (appTimeoutFire id ty (appSendCommand id ty t0 true m)).promise = .resolvedUnit ∧
      Registry.lookup (appTimeoutFire id ty (appSendCommand id ty t0 true m)).registry
        id = none := by
  refine ⟨rfl, ?_⟩
  intro id ty t0 m
  have hlook : Registry.lookup (appSendCommand id ty t0 true m).registry id =
      some ⟨id, ty, t0⟩ := lookup_register m ⟨id, ty, t0⟩
  have hsome : (Registry.lookup (appSendCommand id ty t0 true m).registry id).isSome
      = true := by rw [hlook]; rfl
  have hfire : appTimeoutFire id ty (appSendCommand id ty t0 true m) =
      { registry := Registry.erase (appSendCommand id ty t0 true m).registry id
        promise := settleReject ("Command " ++ ty ++ " timed out")
          (appSendCommand id ty t0 true m).promise } := by
    rw [appTimeoutFire, if_pos hsome]
  refine ⟨rfl, hlook, ?_, ?_⟩
  · rw [hfire]
    exact rfl
  · rw [hfire]
    exact lookup_erase_self _ id

/-! ## Claim C7 -/

/-- C7 counterexample: the claimed equivalence between the Disconnected
state and 15 seconds of staleness fails on a reachable state: after an
accepted update at 1000 ms, a subscription error, and a periodic check
at 2000 ms, the monitor is disconnected although only 1000 ms have
elapsed since the last accepted update. -/
theorem C7_liveness_iff_counterexample :
    ¬ (((connRun connInit
          [.telemetryAccepted 1000, .subscriptionError, .tick 2000]).isConnected
            = false) ↔
       ((connRun connInit
          [.telemetryAccepted 1000, .subscriptionError, .tick 2000]).lastDataReceived
            > 0 ∧
        connectionStaleMs ≤ 2000 - (connRun connInit
          [.telemetryAccepted 1000, .subscriptionError, .tick 2000]).lastDataReceived)) := by
  decide

/-- C7 (amended): the periodic check sets the state to Disconnected
exactly when a first update has been accepted and strictly more than 15
seconds have elapsed since it, and otherwise leaves the state unchanged;
every telemetry update accepted by the sanitizer sets the state to
Connected, sets the last-accepted clock to the current time and resets
the retry count to 0; a subscription error also forces Disconnected (so
Disconnected does not imply staleness). -/
theorem C7_liveness_amended :
    connectionStaleMs = 15000 ∧ connectionCheckPeriodMs = 5000 ∧
    (∀ (s : ConnState) (now : Nat), s.lastDataReceived > 0 →
      now - s.lastDataReceived > connectionStaleMs →
      connStep s (.tick now) = { s with isConnected := false }) ∧
    (∀ (s : ConnState) (now : Nat),
      ¬ (s.lastDataReceived > 0 ∧ now - s.lastDataReceived > connectionStaleMs) →
      connStep s (.tick now) = s) ∧
    (∀ (s : ConnState) (now : Nat), connStep s (.telemetryAccepted now) =
      { isConnected := true, lastDataReceived := now, retryCount := 0 }) ∧
    (∀ s : ConnState, connStep s .subscriptionError =
      { isConnected := false, lastDataReceived := s.lastDataReceived,
        retryCount := s.retryCount + 1 }) := by
  refine ⟨rfl, rfl, ?_, ?_, fun s now => rfl, fun s => rfl⟩
  · intro s now h1 h2
    rw [connStep, if_pos ⟨h1, h2⟩]
  · intro s now h
    rw [connStep, if_neg h]

/-- Witness for C7 at concrete states and clocks. -/
theorem C7_liveness_amended_witness :
    connStep ⟨true, 1000, 2⟩ (.tick 20000) = ⟨false, 1000, 2⟩ ∧
    connStep ⟨true, 1000, 2⟩ (.tick 9000) = ⟨true, 1000, 2⟩ ∧
    connStep ⟨false, 0, 0⟩ (.tick 99999) = ⟨false, 0, 0⟩ ∧
    connStep ⟨false, 5, 3⟩ (.telemetryAccepted 42) = ⟨true, 42, 0⟩ ∧
    connStep ⟨true, 7, 1⟩ .subscriptionError = ⟨false, 7, 2⟩ := by
  refine ⟨C7_liveness_amended.2.2.1 ⟨true, 1000, 2⟩ 20000 (by decide) (by decide),
    C7_liveness_amended.2.2.2.1 ⟨true, 1000, 2⟩ 9000 (by decide),
    C7_liveness_amended.2.2.2.1 ⟨false, 0, 0⟩ 99999 (by decide),
    C7_liveness_amended.2.2.2.2.1 ⟨false, 5, 3⟩ 42,
    C7_liveness_amended.2.2.2.2.2 ⟨true, 7, 1⟩⟩

/-! ## Claim C5 -/

/-- C5 counterexample: the sanitizer does not map every string other
than the lowercase string true to false: the uppercase string TRUE is
mapped to true, because the source lowercases before comparing. -/
theorem C5_parseBoolean_counterexample :
    "TRUE" ≠ "true" ∧ parseBoolean (JSVal.str "TRUE") false = true := by
  decide

/-- C5 (amended): the boolean sanitizer accepts native booleans as-is;
it maps a string to true exactly when its ASCII-lowercased form is the
string true (so the match is case-insensitive, not limited to the
lowercase spellings) and every other string to false; it maps a numeric
value to the result of the strict comparison with 0 (so NaN maps to
true); and it substitutes false for every other input, including null
and undefined. -/
theorem C5_parseBoolean_amended :
    (∀ b, parseBoolean (.bool b) false = b) ∧
    (∀ s : String, parseBoolean (.str s) false = (s.data.map lowerChar == "true".data)) ∧
    (∀ n, parseBoolean (.num n) false = !(n == .fin 0)) ∧
    parseBoolean .null false = false ∧
    parseBoolean .undefined false = false ∧
    (∀ fs, parseBoolean (.obj fs) false = false) := by
  exact ⟨fun b => rfl, fun s => rfl, fun n => rfl, rfl, rfl, fun fs => rfl⟩

end SmartSocket

namespace SmartSocket

/-! ## Claim C4 -/

/-- A structured record. -/
def isRecord : JSVal → Bool
  | .obj _ => true
  | _ => false

theorem parseNumeric_eq_numberOr (v : JSVal) (d : JNum) :
    parseNumeric v d = numberOr d v := by
  cases v <;> simp [parseNumeric, numberOr, isNullOrMissing, toNumber]

theorem parseTimestamp_eq_timestampOr (now : Rat) (g : JSVal) :
    parseTimestamp now g = timestampOr now g := by
  rw [parseTimestamp, timestampOr, parseNumeric_eq_numberOr]

theorem numberOr_ne_nan (d : JNum) (v : JSVal) (hd : d ≠ .nan) :
    numberOr d v ≠ .nan := by
  rw [numberOr]
  split
  · exact hd
  · rename_i h
    exact fun hc => h (Or.inl hc)

theorem clampNonNeg_nonNegative (n : JNum) (h : n ≠ JNum.nan) :
    (clampNonNeg n).nonNegative := by
  cases n with
  | nan => exact absurd rfl h
  | posInf =>
    have hres : clampNonNeg JNum.posInf = .posInf := by
      simp [clampNonNeg, jsMax, JNum.ltb]
    rw [hres]
    exact ⟨by simp, by simp, fun q hq => by simp at hq⟩
  | negInf =>
    have hres : clampNonNeg JNum.negInf = .fin 0 := by
      simp [clampNonNeg, jsMax, JNum.ltb]
    rw [hres]
    exact ⟨by simp, by simp, fun q hq => by injection hq with h0; rw [← h0]⟩
  | fin q =>
    by_cases hq : (0 : Rat) < q
    · have hres : clampNonNeg (JNum.fin q) = .fin q := by
        simp [clampNonNeg, jsMax, JNum.ltb, hq]
      rw [hres]
      exact ⟨by simp, by simp,
        fun r hr => by injection hr with h0; rw [← h0]; exact le_of_lt hq⟩
    · have hres : clampNonNeg (JNum.fin q) = .fin 0 := by
        simp [clampNonNeg, jsMax, JNum.ltb, hq]
      rw [hres]
      exact ⟨by simp, by simp, fun r hr => by injection hr with h0; rw [← h0]⟩

theorem timestampOr_ne_nan (now : Rat) (g : JSVal) : timestampOr now g ≠ .nan := by
  rw [timestampOr]
  split
  · simp
  · exact numberOr_ne_nan _ _ (by simp)

/-- C4: validateTelemetryData rejects exactly the inputs that are not
structured records; on every record it returns a complete snapshot in
which each numeric field is the coercion of the raw value, with
null/undefined/uncoercible values replaced by the documented default (0
generally, 230 for voltage, 10 for currentThreshold, now for the two
timestamp fields), the fields required to be non-negative clamped to
max(0, value), and no numeric field NaN (every field of the result is a
defined value of its type). -/
theorem C4_validateTelemetryData_sanitizes :
    (∀ (now : Rat) (v : JSVal), (validateTelemetryData now v).isSome = isRecord v) ∧
    (∀ (now : Rat) (fields : List (String × JSVal)),
      ∃ t, validateTelemetryData now (.obj fields) = some t ∧
        t.current = clampNonNeg (numberOr (.fin 0) (getField fields "current")) ∧
        t.power = clampNonNeg (numberOr (.fin 0) (getField fields "power")) ∧
        t.voltage = numberOr (.fin 230) (getField fields "voltage") ∧
        t.energy = clampNonNeg (numberOr (.fin 0) (getField fields "energy")) ∧
        t.detectedWattage =
          clampNonNeg (numberOr (.fin 0) (getField fields "detectedWattage")) ∧
        t.expectedCurrent =
          clampNonNeg (numberOr (.fin 0) (getField fields "expectedCurrent")) ∧
        t.currentThreshold =
          clampNonNeg (numberOr (.fin 10) (getField fields "currentThreshold")) ∧
        t.timestamp = timestampOr now (getField fields "timestamp") ∧
        t.heartbeat = timestampOr now (getField fields "heartbeat") ∧
        t.lastCommandTime = numberOr (.fin 0) (getField fields "lastCommandTime") ∧
        t.current.nonNegative ∧ t.power.nonNegative ∧ t.energy.nonNegative ∧
        t.detectedWattage.nonNegative ∧ t.expectedCurrent.nonNegative ∧
        t.currentThreshold.nonNegative ∧
        t.voltage.notNaN ∧ t.timestamp.notNaN ∧ t.heartbeat.notNaN ∧
        t.lastCommandTime.notNaN) := by
  constructor
  · intro now v
    cases v <;> simp [validateTelemetryData, jsTypeofObject, truthy, isRecord]
  · intro now fields
    have hnum : ∀ (g : JSVal) (d : JNum),
        jsMax (.fin 0) (parseNumeric g d) = clampNonNeg (numberOr d g) := by
      intro g d
      rw [clampNonNeg, parseNumeric_eq_numberOr]
    have hsafe : ∀ (g : JSVal) (d : JNum), d ≠ .nan →
        (jsMax (.fin 0) (parseNumeric g d)).nonNegative := by
      intro g d hd
      rw [hnum g d]
      exact clampNonNeg_nonNegative _ (numberOr_ne_nan d g hd)
    have hnn : ∀ (g : JSVal) (d : JNum), d ≠ .nan → (parseNumeric g d).notNaN := by
      intro g d hd
      show parseNumeric g d ≠ .nan
      rw [parseNumeric_eq_numberOr]
      exact numberOr_ne_nan d g hd
    have hts : ∀ g, (parseTimestamp now g).notNaN := by
      intro g
      show parseTimestamp now g ≠ .nan
      rw [parseTimestamp_eq_timestampOr]
      exact timestampOr_ne_nan now g
    refine ⟨_, rfl, hnum _ _, hnum _ _, parseNumeric_eq_numberOr _ _, hnum _ _,
      hnum _ _, hnum _ _, hnum _ _, parseTimestamp_eq_timestampOr now _,
      parseTimestamp_eq_timestampOr now _, parseNumeric_eq_numberOr _ _,
      hsafe _ _ (by simp), hsafe _ _ (by simp), hsafe _ _ (by simp),
      hsafe _ _ (by simp), hsafe _ _ (by simp), hsafe _ _ (by simp),
      hnn _ _ (by simp), hts _, hts _, hnn _ _ (by simp)⟩

end SmartSocket

namespace SmartSocket

/-! ## Claim C3 -/

theorem digitChar_toNat (d : Nat) (h : d < 10) : (digitChar d).toNat = 48 + d := by
  interval_cases d <;> rfl

theorem isDig_digitChar (d : Nat) (h : d < 10) : isDig (digitChar d) = true := by
  interval_cases d <;> rfl

theorem isDig_ne_underscore (c : Char) (h : isDig c = true) : c ≠ '_' := by
  intro he
  subst he
  simp [isDig] at h

theorem natDecAux_spec (fuel : Nat) : ∀ n : Nat, n < fuel →
    decimalOfDigits (natDecAux fuel n) = n ∧ natDecAux fuel n ≠ [] ∧
      ∀ c ∈ natDecAux fuel n, isDig c = true := by
  induction fuel with
  | zero => intro n h; omega
  | succ f ih =>
    intro n h
    rw [natDecAux]
    by_cases h10 : n < 10
    · rw [if_pos h10]
      refine ⟨?_, by simp, ?_⟩
      · simp [decimalOfDigits, digitVal, digitChar_toNat n h10]
      · intro c hc
        rw [List.mem_singleton] at hc
        rw [hc]
        exact isDig_digitChar n h10
    · rw [if_neg h10]
      have hn : n / 10 < f := by omega
      obtain ⟨hval, hne, hdig⟩ := ih (n / 10) hn
      refine ⟨?_, by simp, ?_⟩
      · rw [decimalOfDigits, List.foldl_append]
        rw [show List.foldl (fun a c => 10 * a + digitVal c)
            0 (natDecAux f (n / 10)) = decimalOfDigits (natDecAux f (n / 10)) from rfl]
        rw [hval]
        simp [List.foldl, digitVal, digitChar_toNat (n % 10) (by omega)]
        omega
      · intro c hc
        rw [List.mem_append] at hc
        rcases hc with hc | hc
        · exact hdig c hc
        · rw [List.mem_singleton] at hc
          rw [hc]
          exact isDig_digitChar _ (by omega)

theorem natDec_val (n : Nat) : decimalOfDigits (natDec n) = n :=
  (natDecAux_spec (n + 1) n (by omega)).1

theorem natDec_no_underscore (n : Nat) : '_' ∉ natDec n := by
  intro hmem
  exact isDig_ne_underscore '_' ((natDecAux_spec (n + 1) n (by omega)).2.2 '_' hmem) rfl

theorem append_underscore_inj (as : List Char) : ∀ (cs bs ds : List Char),
    '_' ∉ as → '_' ∉ cs →
    as ++ '_' :: bs = cs ++ '_' :: ds → as = cs ∧ bs = ds := by
  induction as with
  | nil =>
    intro cs bs ds _ hc h
    cases cs with
    | nil => simpa using h
    | cons c cs' =>
      rw [List.nil_append, List.cons_append, List.cons.injEq] at h
      exact absurd (by rw [h.1]; exact List.mem_cons_self c cs' : '_' ∈ c :: cs') hc
  | cons a as' ih =>
    intro cs bs ds ha hc h
    cases cs with
    | nil =>
      rw [List.cons_append, List.nil_append, List.cons.injEq] at h
      exact absurd (by rw [← h.1]; exact List.mem_cons_self a as' : '_' ∈ a :: as') ha
    | cons c cs' =>
      rw [List.cons_append, List.cons_append, List.cons.injEq] at h
      have ha' : '_' ∉ as' := fun hm => ha (List.mem_cons_of_mem a hm)
      have hc' : '_' ∉ cs' := fun hm => hc (List.mem_cons_of_mem c hm)
      obtain ⟨h1, h2⟩ := ih cs' bs ds ha' hc' h.2
      exact ⟨by rw [h.1, h1], h2⟩

theorem map_id_register (p : PendingCommand) :
    ∀ q : PendingCommand, (if q.id == p.id then p else q).id = q.id := by
  intro q
  cases hq : (q.id == p.id) with
  | true =>
    rw [if_pos rfl]
    exact (eq_of_beq hq).symm
  | false => rw [if_neg Bool.false_ne_true]

theorem keysNodup_register (m : Registry) (p : PendingCommand)
    (h : m.keysNodup) : (m.register p).keysNodup := by
  rw [Registry.register]
  cases hl : (Registry.lookup m p.id).isSome with
  | true =>
    rw [if_pos rfl, Registry.keysNodup, List.map_map]
    have : m.map (PendingCommand.id ∘ fun q => if q.id == p.id then p else q) =
        m.map PendingCommand.id :=
      List.map_congr_left (fun q _ => map_id_register p q)
    rw [this]
    exact h
  | false =>
    rw [if_neg Bool.false_ne_true, Registry.keysNodup, List.map_append]
    have hnone : Registry.lookup m p.id = none := by
      rcases he : Registry.lookup m p.id with _ | q
      · rfl
      · rw [he] at hl; simp at hl
    have hnotmem : p.id ∉ m.map PendingCommand.id := by
      intro hmem
      obtain ⟨q, hq, hqid⟩ := List.mem_map.mp hmem
      rw [Registry.lookup, List.find?_eq_none] at hnone
      exact hnone q hq (by simp [hqid])
    simp only [List.map_cons, List.map_nil]
    rw [List.nodup_append]
    exact ⟨h, List.nodup_singleton _, by
      intro a ha hb
      rw [List.mem_singleton] at hb
      rw [hb] at ha
      exact hnotmem ha⟩

/-- C3 counterexample: correlation ids are not pairwise distinct for
every issue sequence: two calls that observe the same millisecond clock
value and draw the same random suffix produce the same id. -/
theorem C3_commandId_counterexample :
    ¬ ((([(5, "a"), (5, "a")] : List (Nat × String)).map
        (fun c => generateCommandId c.1 c.2)).Pairwise (· ≠ ·)) := by
  decide

/-- C3 (amended): the generated id encodes the clock value and the
random suffix injectively (the suffix alphabet, base-36 digits, contains
no underscore), so two issue calls collide only if both their clock
reading and their random draw coincide; and independently of id
collisions, the registry is keyed by a map, so no two pending entries
ever share a correlation id. -/
theorem C3_commandId_amended :
    (∀ (t1 t2 : Nat) (s1 s2 : String),
      '_' ∉ s1.data → '_' ∉ s2.data →
      generateCommandId t1 s1 = generateCommandId t2 s2 → t1 = t2 ∧ s1 = s2) ∧
    (∀ (m : Registry) (p : PendingCommand), m.keysNodup →
      (m.register p).keysNodup) := by
  constructor
  · intro t1 t2 s1 s2 h1 h2 h
    have hdata := congrArg String.data h
    simp only [generateCommandId, String.data_append] at hdata
    have hdata' : natDec t1 ++ '_' :: s1.data = natDec t2 ++ '_' :: s2.data := by
      have : ("cmd_".data ++ (natDec t1 ++ ('_' :: s1.data))) =
          ("cmd_".data ++ (natDec t2 ++ ('_' :: s2.data))) := by
        simpa [List.append_assoc] using hdata
      exact List.append_cancel_left this
    obtain ⟨hT, hS⟩ := append_underscore_inj (natDec t1) (natDec t2) s1.data s2.data
      (natDec_no_underscore t1) (natDec_no_underscore t2) hdata'
    refine ⟨?_, ?_⟩
    · rw [← natDec_val t1, ← natDec_val t2, hT]
    · cases s1
      cases s2
      exact congrArg String.mk (by simpa using hS)
  · exact keysNodup_register

/-- Witness for C3 at concrete clock values and suffixes. -/
theorem C3_commandId_amended_witness :
    generateCommandId 1 "a" ≠ generateCommandId 2 "a" ∧
    Registry.keysNodup
      (Registry.register [] ⟨generateCommandId 1 "a", "RELAY_CONTROL", 0⟩) := by
  constructor
  · intro h
    have h12 := (C3_commandId_amended.1 1 2 "a" "a" (by decide) (by decide) h).1
    exact absurd h12 (by decide)
  · exact C3_commandId_amended.2 [] _ (by simp [Registry.keysNodup])

end SmartSocket

namespace SmartSocket

/-! ## Claim C2 -/

/-- An event that is possible strictly before the 10 second timeout of
the command registered under the given id at time t0 fires: an
acknowledgment for a different id (no matching acknowledgment is
observed), another command's timeout, or a sweep whose clock is within
the 10 second window. -/
def quietFor (id : String) (t0 : Nat) : REvent → Bool
  | .ackArrive cid => cid != id
  | .timeoutFire tid => tid != id
  | .sweep now => decide (now ≤ t0 + commandTimeoutMs)

theorem rstep_preserves (m : Registry) (e : REvent) (id : String)
    (p : PendingCommand) (hp : m.lookup id = some p)
    (hq : quietFor id p.timestamp e = true) :
    Registry.lookup (rstep m e).1 id = some p := by
  cases e with
  | ackArrive cid =>
    have hne : id ≠ cid := by
      have := bne_iff_ne.mp hq
      exact fun h => this h.symm
    rw [rstep]
    by_cases hc : cid = ""
    · rw [if_pos hc]
      exact hp
    · rw [if_neg hc]
      rcases hl : Registry.lookup m cid with _ | q
      · exact hp
      · rw [← hp]
        exact lookup_erase_ne m id cid hne
  | timeoutFire tid =>
    have hne : id ≠ tid := by
      have := bne_iff_ne.mp hq
      exact fun h => this h.symm
    rw [rstep]
    rcases hl : Registry.lookup m tid with _ | q
    · exact hp
    · rw [← hp]
      exact lookup_erase_ne m id tid hne
  | sweep now =>
    have hbound : now ≤ p.timestamp + commandTimeoutMs := by
      simpa [quietFor] using hq
    rw [commandTimeoutMs] at hbound
    have hkeep : (!(decide (now - p.timestamp > sweepExpiryMs))) = true := by
      rw [sweepExpiryMs]
      simp
      omega
    rw [rstep]
    exact lookup_filter_keep m _ id p hp hkeep

theorem rrun_preserves (es : List REvent) (m : Registry) (id : String)
    (p : PendingCommand) (hp : m.lookup id = some p)
    (hq : ∀ e ∈ es, quietFor id p.timestamp e = true) :
    Registry.lookup (rrun m es).1 id = some p := by
  induction es generalizing m with
  | nil => exact hp
  | cons e es ih =>
    rw [rrun]
    exact ih (rstep m e).1
      (rstep_preserves m e id p hp (hq e (List.mem_cons_self e es)))
      (fun e' he' => hq e' (List.mem_cons_of_mem e he'))

/-- C2: the per-command timeout is 10 seconds; if, from the moment a
command is registered, no matching acknowledgment is observed before its
timeout fires (only foreign acknowledgments, foreign timeouts and
in-window sweeps occur), then the timeout rejects the handle with the
error naming the command type and removes the registry entry in the
same step, so that a later acknowledgment for that id is a no-op. -/
theorem C2_timeout_rejects_and_removes :
    commandTimeoutMs = 10000 ∧
    ∀ (m : Registry) (id ty : String) (t0 : Nat) (es : List REvent),
      m.lookup id = some ⟨id, ty, t0⟩ →
      (∀ e ∈ es, quietFor id t0 e = true) →
      rstep (rrun m es).1 (.timeoutFire id) =
        (Registry.erase (rrun m es).1 id,
          [.rejected id ("Command " ++ ty ++ " timed out")]) ∧
      Registry.lookup (Registry.erase (rrun m es).1 id) id = none ∧
      rstep (Registry.erase (rrun m es).1 id) (.ackArrive id) =
        (Registry.erase (rrun m es).1 id, []) := by
  refine ⟨rfl, ?_⟩
  intro m id ty t0 es hp hq
  have hlive : Registry.lookup (rrun m es).1 id = some ⟨id, ty, t0⟩ :=
    rrun_preserves es m id ⟨id, ty, t0⟩ hp hq
  have herase := lookup_erase_self (rrun m es).1 id
  refine ⟨by rw [rstep, hlive], herase, ?_⟩
  rw [rstep]
  by_cases hid : id = ""
  · rw [if_pos hid]
  · rw [if_neg hid, herase]

/-- Witness for C2 at a concrete registry and pre-timeout event
sequence. -/
theorem C2_timeout_rejects_and_removes_witness :
    rstep
      (rrun [⟨"cmd_7_z", "RESET_PROTECTION", 1000⟩]
        [.ackArrive "cmd_other", .sweep 9000, .timeoutFire "cmd_other"]).1
      (.timeoutFire "cmd_7_z") =
      (Registry.erase
        (rrun [⟨"cmd_7_z", "RESET_PROTECTION", 1000⟩]
          [.ackArrive "cmd_other", .sweep 9000, .timeoutFire "cmd_other"]).1
        "cmd_7_z",
        [.rejected "cmd_7_z" "Command RESET_PROTECTION timed out"]) ∧
    Registry.lookup
      (Registry.erase
        (rrun [⟨"cmd_7_z", "RESET_PROTECTION", 1000⟩]
          [.ackArrive "cmd_other", .sweep 9000, .timeoutFire "cmd_other"]).1
        "cmd_7_z") "cmd_7_z" = none := by
  have h := C2_timeout_rejects_and_removes.2
    [⟨"cmd_7_z", "RESET_PROTECTION", 1000⟩] "cmd_7_z" "RESET_PROTECTION" 1000
    [.ackArrive "cmd_other", .sweep 9000, .timeoutFire "cmd_other"]
    (by decide) (by decide)
  exact ⟨h.1, h.2.1⟩

end SmartSocket

namespace SmartSocket

/-! ## Claims C8 and C9: schedule planner -/

theorem ne_colon_of_isDig (c : Char) (h : isDig c = true) : ¬ (c = ':') := by
  intro he
  subst he
  simp [isDig] at h

theorem digitVal_le_of_isDig (c : Char) (h : isDig c = true) : digitVal c ≤ 9 := by
  simp [isDig] at h
  rw [digitVal]
  omega

theorem timeOk_parts (s : String) (h : validateTimeFormat s = true) :
    ∃ hh mm : Nat, timeParts s = some (hh, mm) ∧ hh ≤ 23 ∧ mm ≤ 59 := by
  rw [validateTimeFormat] at h
  rw [timeParts]
  rcases hcs : trimChars s.data with
    _ | ⟨a, _ | ⟨b, _ | ⟨c, _ | ⟨d, _ | ⟨e, _ | ⟨f, rest⟩⟩⟩⟩⟩⟩ <;>
    rw [hcs] at h
  · simp [timeOk] at h
  · simp [timeOk] at h
  · simp [timeOk] at h
  · simp [timeOk] at h
  · -- four characters: one-digit hour
    simp only [timeOk, Bool.and_eq_true, beq_iff_eq] at h
    obtain ⟨⟨⟨hb, ha⟩, hc, hc53⟩, hd⟩ := h
    subst hb
    have hane := ne_colon_of_isDig a ha
    have hcne := ne_colon_of_isDig c hc
    have hdne := ne_colon_of_isDig d hd
    have hsplit : splitColon [a, ':', c, d] = [[a], [c, d]] := by
      simp [splitColon, splitColonAux, hane, hcne, hdne]
    have hga : numOfDigitGroup [a] = some (digitVal a) := by
      simp [numOfDigitGroup, ha, decimalOfDigits]
    have hgcd : numOfDigitGroup [c, d] = some (10 * digitVal c + digitVal d) := by
      simp [numOfDigitGroup, ha, hc, hd, decimalOfDigits]
    simp only [hsplit, hga, hgcd]
    refine ⟨_, _, rfl, ?_, ?_⟩
    · have := digitVal_le_of_isDig a ha
      omega
    · have h1 := digitVal_le_of_isDig d hd
      simp only [decide_eq_true_eq] at hc53
      have h2 : digitVal c ≤ 5 := by
        rw [digitVal]
        omega
      omega
  · -- five characters: two-digit hour
    simp only [timeOk, Bool.and_eq_true, Bool.or_eq_true, beq_iff_eq] at h
    obtain ⟨⟨⟨hcol, hhour⟩, hm1, h53⟩, hm2⟩ := h
    subst hcol
    have hadig : isDig a = true := by
      rcases hhour with ⟨h01, _⟩ | ⟨h2, _⟩
      · simp only [decide_eq_true_eq] at h01
        simp [isDig]
        omega
      · rw [h2]
        rfl
    have hbdig : isDig b = true := by
      rcases hhour with ⟨_, hb9⟩ | ⟨_, hb3⟩
      · exact hb9
      · simp only [decide_eq_true_eq] at hb3
        simp [isDig]
        omega
    have hane := ne_colon_of_isDig a hadig
    have hbne := ne_colon_of_isDig b hbdig
    have hm1ne := ne_colon_of_isDig d hm1
    have hm2ne := ne_colon_of_isDig e hm2
    have hsplit : splitColon [a, b, ':', d, e] = [[a, b], [d, e]] := by
      simp [splitColon, splitColonAux, hane, hbne, hm1ne, hm2ne]
    have hgab : numOfDigitGroup [a, b] = some (10 * digitVal a + digitVal b) := by
      simp [numOfDigitGroup, hadig, hbdig, decimalOfDigits]
    have hgde : numOfDigitGroup [d, e] = some (10 * digitVal d + digitVal e) := by
      simp [numOfDigitGroup, hm1, hm2, decimalOfDigits]
    simp only [hsplit, hgab, hgde]
    refine ⟨_, _, rfl, ?_, ?_⟩
    · rcases hhour with ⟨h01, hb9⟩ | ⟨h2, hb3⟩
      · simp only [decide_eq_true_eq] at h01
        have := digitVal_le_of_isDig b hbdig
        have ha1 : digitVal a ≤ 1 := by
          rw [digitVal]
          omega
        omega
      · simp only [decide_eq_true_eq] at hb3
        have ha2 : digitVal a = 2 := by rw [h2]; rfl
        have hb3' : digitVal b ≤ 3 := by
          rw [digitVal]
          omega
        omega
    · have h1 := digitVal_le_of_isDig e hm2
      simp only [decide_eq_true_eq] at h53
      have h2 : digitVal d ≤ 5 := by
        rw [digitVal]
        omega
      omega
  · simp [timeOk] at h

theorem parseTime_bounds (s : String) (now : Nat)
    (h : validateTimeFormat s = true) :
    ∃ t, parseTimeToTimestamp now s = some t ∧ now < t ∧ t ≤ now + msPerDay := by
  obtain ⟨hh, mm, hparts, hhb, hmb⟩ := timeOk_parts s h
  rw [parseTimeToTimestamp, hparts]
  refine ⟨_, rfl, ?_, ?_⟩ <;>
    · simp only [msPerDay]
      split <;> omega

end SmartSocket

namespace SmartSocket

/-- C8: for every clock value, planning from 23:50 to 00:10 succeeds,
the resolved start is in the future, the resolved end is strictly after
the start (the span crosses midnight via the 24 hour adjustment), and
the span is exactly 20 minutes. -/
theorem C8_plan_overnight_twenty_minutes :
    ∀ now : Nat, ∃ s e : Nat,
      handleScheduleSet "23:50" "00:10" now = .ok (s, e) ∧
      now < s ∧ s < e ∧ e - s = 1200000 := by
  intro now
  have hs : timeParts "23:50" = some (23, 50) := by decide
  have he : timeParts "00:10" = some (0, 10) := by decide
  have hps : parseTimeToTimestamp now "23:50" =
      some (if now - now % msPerDay + (23 * 60 + 50) * 60000 ≤ now
        then now - now % msPerDay + (23 * 60 + 50) * 60000 + msPerDay
        else now - now % msPerDay + (23 * 60 + 50) * 60000) := by
    rw [parseTimeToTimestamp, hs]
  have hpe : parseTimeToTimestamp now "00:10" =
      some (if now - now % msPerDay + (0 * 60 + 10) * 60000 ≤ now
        then now - now % msPerDay + (0 * 60 + 10) * 60000 + msPerDay
        else now - now % msPerDay + (0 * 60 + 10) * 60000) := by
    rw [parseTimeToTimestamp, he]
  rw [handleScheduleSet, if_neg (by decide), if_neg (by decide)]
  simp only [hps, hpe, spanCheck, msPerDay]
  split_ifs <;> first
    | (exfalso; omega)
    | (refine ⟨_, _, rfl, ?_, ?_, ?_⟩ <;> omega)

/-- C9 counterexample: an input that does not match the HH:MM pattern is
not always rejected with the invalid-time-format error: an empty (or
all-whitespace) input, which does not match the pattern, is rejected by
the earlier missing-times guard instead. -/
theorem C9_plan_rejections_counterexample :
    validateTimeFormat "" = false ∧
    handleScheduleSet "" "00:10" 0 = .error .missingTimes ∧
    SchedError.missingTimes ≠ SchedError.invalidTimeFormat :=
  ⟨rfl, rfl, by decide⟩

/-- C9 (amended): for inputs that pass the non-empty guard, any input
failing the strict 24-hour HH:MM pattern is rejected with the
invalid-time-format error before any write; in particular 25:00 is so
rejected; empty or all-whitespace inputs are rejected earlier with the
missing-times error.  The duration stage rejects any resolved span
exceeding 24 hours; since resolution always produces a span of at most
24 hours, every successful plan has a positive span of at most 24
hours. -/
theorem C9_plan_rejections_amended :
    (∀ (s e : String) (now : Nat),
      (trimChars s.data).isEmpty = false → (trimChars e.data).isEmpty = false →
      (validateTimeFormat s = false ∨ validateTimeFormat e = false) →
      handleScheduleSet s e now = .error .invalidTimeFormat) ∧
    validateTimeFormat "25:00" = false ∧
    (∀ (e : String) (now : Nat), (trimChars e.data).isEmpty = false →
      handleScheduleSet "25:00" e now = .error .invalidTimeFormat) ∧
    (∀ st en : Nat, 24 * 3600000 < en - st →
      spanCheck st en = .error .scheduleTooLong) ∧
    (∀ (s e : String) (now st en : Nat),
      handleScheduleSet s e now = .ok (st, en) →
      st < en ∧ en - st ≤ 24 * 3600000) := by
  have hmain : ∀ (s e : String) (now : Nat),
      (trimChars s.data).isEmpty = false → (trimChars e.data).isEmpty = false →
      (validateTimeFormat s = false ∨ validateTimeFormat e = false) →
      handleScheduleSet s e now = .error .invalidTimeFormat := by
    intro s e now h1 h2 h3
    have hv : (!validateTimeFormat s || !validateTimeFormat e) = true := by
      rcases h3 with h | h <;> simp [h]
    rw [handleScheduleSet, if_neg (by simp [h1, h2]), if_pos hv]
  refine ⟨hmain, by decide, ?_, ?_, ?_⟩
  · intro e now h2
    exact hmain "25:00" e now (by decide) h2 (Or.inl (by decide))
  · intro st en h
    rw [spanCheck, if_pos h]
  · intro s e now st en h
    rw [handleScheduleSet] at h
    by_cases g1 : ((trimChars s.data).isEmpty || (trimChars e.data).isEmpty) = true
    · rw [if_pos g1] at h
      exact absurd h (by simp)
    · rw [if_neg g1] at h
      by_cases g2 : (!validateTimeFormat s || !validateTimeFormat e) = true
      · rw [if_pos g2] at h
        exact absurd h (by simp)
      · rw [if_neg g2] at h
        have hvs : validateTimeFormat s = true := by
          rcases hb : validateTimeFormat s with _ | _
          · exact absurd (by simp [hb]) g2
          · rfl
        have hve : validateTimeFormat e = true := by
          rcases hb : validateTimeFormat e with _ | _
          · exact absurd (by simp [hb]) g2
          · rfl
        obtain ⟨S, hS, hSl, hSu⟩ := parseTime_bounds s now hvs
        obtain ⟨E0, hE, hEl, hEu⟩ := parseTime_bounds e now hve
        rw [hS, hE] at h
        simp only [spanCheck] at h
        by_cases g3 : 24 * 3600000 < (if E0 ≤ S then E0 + msPerDay else E0) - S
        · rw [if_pos g3] at h
          exact absurd h (by simp)
        · rw [if_neg g3] at h
          have hinj := Except.ok.inj h
          have hst : S = st := congrArg Prod.fst hinj
          have hen : (if E0 ≤ S then E0 + msPerDay else E0) = en :=
            congrArg Prod.snd hinj
          rw [msPerDay] at hSu hEu hen g3
          by_cases hif : E0 ≤ S
          · rw [if_pos hif] at hen g3
            constructor <;> omega
          · rw [if_neg hif] at hen g3
            constructor <;> omega

/-- Witness for C9 at concrete inputs. -/
theorem C9_plan_rejections_witness :
    handleScheduleSet "9:99" "10:00" 0 = .error .invalidTimeFormat ∧
    handleScheduleSet "25:00" "10:00" 5 = .error .invalidTimeFormat ∧
    spanCheck 0 90000000 = .error .scheduleTooLong ∧
    (36000000 < 37800000 ∧ 37800000 - 36000000 ≤ 24 * 3600000) := by
  refine ⟨C9_plan_rejections_amended.1 "9:99" "10:00" 0 (by decide) (by decide)
      (Or.inl (by decide)),
    C9_plan_rejections_amended.2.2.1 "10:00" 5 (by decide),
    C9_plan_rejections_amended.2.2.2.1 0 90000000 (by decide),
    C9_plan_rejections_amended.2.2.2.2 "10:00" "10:30" 0 36000000 37800000 rfl⟩

end SmartSocket

namespace SmartSocket

/-! ## Claim C6: alert aggregator -/

theorem length_mergeFuel {α : Type} (le : α → α → Bool) :
    ∀ (fuel : Nat) (l r : List α),
      (mergeFuel le fuel l r).length = l.length + r.length := by
  intro fuel
  induction fuel with
  | zero => intro l r; simp [mergeFuel]
  | succ f ih =>
    intro l r
    cases l with
    | nil => simp [mergeFuel]
    | cons a as =>
      cases r with
      | nil => simp [mergeFuel]
      | cons b bs =>
        rw [mergeFuel]
        split
        · simp [ih]
          omega
        · simp [ih]
          omega

theorem mem_mergeFuel {α : Type} (le : α → α → Bool) :
    ∀ (fuel : Nat) (l r : List α) (x : α),
      x ∈ mergeFuel le fuel l r → x ∈ l ∨ x ∈ r := by
  intro fuel
  induction fuel with
  | zero => intro l r x hx; simpa [mergeFuel] using List.mem_append.mp (by simpa [mergeFuel] using hx)
  | succ f ih =>
    intro l r x hx
    cases l with
    | nil => exact Or.inr (by simpa [mergeFuel] using hx)
    | cons a as =>
      cases r with
      | nil => exact Or.inl (by simpa [mergeFuel] using hx)
      | cons b bs =>
        rw [mergeFuel] at hx
        split at hx
        · rcases List.mem_cons.mp hx with rfl | hx'
          · exact Or.inl (List.mem_cons_self _ _)
          · rcases ih as (b :: bs) x hx' with h | h
            · exact Or.inl (List.mem_cons_of_mem _ h)
            · exact Or.inr h
        · rcases List.mem_cons.mp hx with rfl | hx'
          · exact Or.inr (List.mem_cons_self _ _)
          · rcases ih (a :: as) bs x hx' with h | h
            · exact Or.inl h
            · exact Or.inr (List.mem_cons_of_mem _ h)

theorem splitAlt_length {α : Type} : ∀ l : List α,
    (splitAlt l).1.length + (splitAlt l).2.length = l.length ∧
    (splitAlt l).2.length ≤ (splitAlt l).1.length ∧
    (splitAlt l).1.length ≤ (splitAlt l).2.length + 1 := by
  intro l
  induction l with
  | nil => simp [splitAlt]
  | cons a rest ih =>
    simp only [splitAlt, List.length_cons]
    omega

theorem mem_splitAlt {α : Type} : ∀ (l : List α) (x : α),
    (x ∈ (splitAlt l).1 → x ∈ l) ∧ (x ∈ (splitAlt l).2 → x ∈ l) := by
  intro l
  induction l with
  | nil => intro x; simp [splitAlt]
  | cons a rest ih =>
    intro x
    constructor
    · intro hx
      simp only [splitAlt] at hx
      rcases List.mem_cons.mp hx with rfl | hx'
      · exact List.mem_cons_self _ _
      · exact List.mem_cons_of_mem _ ((ih x).2 hx')
    · intro hx
      simp only [splitAlt] at hx
      exact List.mem_cons_of_mem _ ((ih x).1 hx)

theorem length_msortFuel {α : Type} (le : α → α → Bool) :
    ∀ (fuel : Nat) (l : List α), (msortFuel le fuel l).length = l.length := by
  intro fuel
  induction fuel with
  | zero => intro l; rfl
  | succ f ih =>
    intro l
    rw [msortFuel]
    split
    · rfl
    · have h := splitAlt_length l
      simp only [length_mergeFuel, ih]
      omega

theorem mem_msortFuel {α : Type} (le : α → α → Bool) :
    ∀ (fuel : Nat) (l : List α) (x : α), x ∈ msortFuel le fuel l → x ∈ l := by
  intro fuel
  induction fuel with
  | zero => intro l x hx; exact hx
  | succ f ih =>
    intro l x hx
    rw [msortFuel] at hx
    split at hx
    · exact hx
    · rcases mem_mergeFuel le l.length _ _ x hx with h | h
      · exact (mem_splitAlt l x).1 (ih _ x h)
      · exact (mem_splitAlt l x).2 (ih _ x h)

theorem chain'_mergeFuel {α : Type} (le : α → α → Bool)
    (htot : ∀ a b, le a b = true ∨ le b a = true) :
    ∀ (fuel : Nat) (l r : List α), l.length + r.length ≤ fuel →
      List.Chain' (fun a b => le a b = true) l →
      List.Chain' (fun a b => le a b = true) r →
      List.Chain' (fun a b => le a b = true) (mergeFuel le fuel l r) ∧
      ((mergeFuel le fuel l r).head? = l.head? ∨
        (mergeFuel le fuel l r).head? = r.head?) := by
  intro fuel
  induction fuel with
  | zero =>
    intro l r hlen hl hr
    have hl0 : l = [] := List.length_eq_zero.mp (by omega)
    have hr0 : r = [] := List.length_eq_zero.mp (by omega)
    subst hl0
    subst hr0
    exact ⟨List.chain'_nil, Or.inl rfl⟩
  | succ f ih =>
    intro l r hlen hl hr
    cases l with
    | nil => exact ⟨hr, Or.inr rfl⟩
    | cons a as =>
      cases r with
      | nil => exact ⟨hl, Or.inl rfl⟩
      | cons b bs =>
        rw [mergeFuel]
        by_cases hab : le a b = true
        · rw [if_pos hab]
          have hlen' : as.length + (b :: bs).length ≤ f := by
            simp only [List.length_cons] at hlen ⊢
            omega
          obtain ⟨hch, hhd⟩ := ih as (b :: bs) hlen' hl.tail hr
          refine ⟨?_, Or.inl rfl⟩
          rw [List.chain'_cons']
          refine ⟨?_, hch⟩
          intro y hy
          rcases hhd with hhd | hhd
          · rw [hhd] at hy
            exact (List.chain'_cons'.mp hl).1 y hy
          · rw [hhd] at hy
            simp only [List.head?_cons, Option.mem_def, Option.some.injEq] at hy
            rw [← hy]
            exact hab
        · have hba : le b a = true := (htot a b).resolve_left hab
          rw [if_neg hab]
          have hlen' : (a :: as).length + bs.length ≤ f := by
            simp only [List.length_cons] at hlen ⊢
            omega
          obtain ⟨hch, hhd⟩ := ih (a :: as) bs hlen' hl hr.tail
          refine ⟨?_, Or.inr rfl⟩
          rw [List.chain'_cons']
          refine ⟨?_, hch⟩
          intro y hy
          rcases hhd with hhd | hhd
          · rw [hhd] at hy
            simp only [List.head?_cons, Option.mem_def, Option.some.injEq] at hy
            rw [← hy]
            exact hba
          · rw [hhd] at hy
            exact (List.chain'_cons'.mp hr).1 y hy

theorem chain'_msortFuel {α : Type} (le : α → α → Bool)
    (htot : ∀ a b, le a b = true ∨ le b a = true) :
    ∀ (fuel : Nat) (l : List α), l.length ≤ fuel →
      List.Chain' (fun a b => le a b = true) (msortFuel le fuel l) := by
  intro fuel
  induction fuel with
  | zero =>
    intro l h
    have : l = [] := List.length_eq_zero.mp (by omega)
    subst this
    exact List.chain'_nil
  | succ f ih =>
    intro l hlen
    rw [msortFuel]
    by_cases h1 : l.length ≤ 1
    · rw [if_pos h1]
      cases l with
      | nil => exact List.chain'_nil
      | cons a as =>
        cases as with
        | nil => exact List.chain'_singleton a
        | cons b bs => simp at h1
    · rw [if_neg h1]
      obtain ⟨hsum, hp2, hp1⟩ := splitAlt_length l
      have hl1 : (splitAlt l).1.length ≤ f := by omega
      have hl2 : (splitAlt l).2.length ≤ f := by omega
      have hlb : (msortFuel le f (splitAlt l).1).length +
          (msortFuel le f (splitAlt l).2).length ≤ l.length := by
        rw [length_msortFuel, length_msortFuel]
        omega
      exact (chain'_mergeFuel le htot l.length _ _ hlb (ih _ hl1) (ih _ hl2)).1

theorem alertBefore_total (a b : AlertData) :
    alertBefore a b = true ∨ alertBefore b a = true := by
  obtain ⟨ta, ma, sa⟩ := a
  obtain ⟨tb, mb, sb⟩ := b
  cases sa <;> cases sb <;> simp [alertBefore] <;> exact le_total _ _

theorem alertBefore_trans (a b c : AlertData)
    (ha : a.timestamp ≠ .nan) (hb : b.timestamp ≠ .nan) (hc : c.timestamp ≠ .nan)
    (h1 : alertBefore a b = true) (h2 : alertBefore b c = true) :
    alertBefore a c = true := by
  obtain ⟨ta, ma, sa⟩ := a
  obtain ⟨tb, mb, sb⟩ := b
  obtain ⟨tc, mc, sc⟩ := c
  cases sa <;> cases sb <;> cases sc <;>
    simp_all [alertBefore] <;> exact le_trans h2 h1

theorem alertBefore_not_lt (a b : AlertData)
    (ha : a.timestamp ≠ .nan) (hb : b.timestamp ≠ .nan)
    (h : alertBefore a b = true) :
    JNum.ltb a.timestamp b.timestamp = false := by
  obtain ⟨ta, ma, sa⟩ := a
  obtain ⟨tb, mb, sb⟩ := b
  cases sa <;> cases sb <;> simp_all [alertBefore, JNum.ltb, not_lt]

theorem chain_all_alert (a : AlertData) (l : List AlertData)
    (ha : a.timestamp ≠ .nan) (hl : ∀ x ∈ l, x.timestamp ≠ .nan)
    (hch : List.Chain (fun x y => alertBefore x y = true) a l) :
    ∀ b ∈ l, alertBefore a b = true := by
  induction l generalizing a with
  | nil => intro b hb; simp at hb
  | cons b rest ih =>
    intro c hc
    obtain ⟨hab, hch'⟩ := List.chain_cons.mp hch
    rcases List.mem_cons.mp hc with rfl | hc'
    · exact hab
    · have hbn : b.timestamp ≠ .nan := hl b (List.mem_cons_self _ _)
      have hcn : c.timestamp ≠ .nan := hl c (List.mem_cons_of_mem _ hc')
      have hrec := ih b hbn (fun x hx => hl x (List.mem_cons_of_mem _ hx)) hch' c hc'
      exact alertBefore_trans a b c ha hbn hcn hab hrec

theorem chain'_to_pairwise_alert : ∀ (l : List AlertData),
    (∀ x ∈ l, x.timestamp ≠ .nan) →
    List.Chain' (fun a b => alertBefore a b = true) l →
    List.Pairwise (fun a b => alertBefore a b = true) l := by
  intro l
  induction l with
  | nil => intro _ _; exact List.Pairwise.nil
  | cons a rest ih =>
    intro hnn hch
    have hch2 : List.Chain (fun x y => alertBefore x y = true) a rest := hch
    refine List.Pairwise.cons ?_ ?_
    · exact chain_all_alert a rest (hnn a (List.mem_cons_self _ _))
        (fun x hx => hnn x (List.mem_cons_of_mem _ hx)) hch2
    · exact ih (fun x hx => hnn x (List.mem_cons_of_mem _ hx)) hch.tail

/-- The candidate values of a raw batch (Object.values). -/
def valuesOf : JSVal → List JSVal
  | .obj fields => fields.map Prod.snd
  | _ => []

end SmartSocket

namespace SmartSocket

/-- The counterexample batch for C6: four alert records, all passing the
presence filter, whose timestamp strings parse to 3, NaN, NaN and 5. -/
def mixedAlertBatch : JSVal :=
  .obj [
    ("k1", .obj [("type", .str "A"), ("message", .str "m1"), ("timestamp", .str "3")]),
    ("k2", .obj [("type", .str "B"), ("message", .str "m2"), ("timestamp", .str "x")]),
    ("k3", .obj [("type", .str "C"), ("message", .str "m3"), ("timestamp", .str "y")]),
    ("k4", .obj [("type", .str "D"), ("message", .str "m4"), ("timestamp", .str "5")])]

/-- C6 counterexample: the aggregator output is not always sorted
descending by timestamp.  With NaN timestamps in the batch (truthy but
unparseable strings), every comparator call against them ties (the
ECMAScript SortCompare rule), and the output keeps the entry with
timestamp 3 before the entry with timestamp 5. -/
theorem C6_aggregator_counterexample :
    ¬ (validateAlertData mixedAlertBatch).Pairwise
        (fun a b => JNum.ltb a.timestamp b.timestamp = false) := by
  decide

/-- C6 (amended): for every raw batch the aggregator output has length
at most 10, every output entry is built from a batch value whose type,
message and timestamp are all present (truthy) — so entries missing one
of them are excluded — and a non-record input yields the empty sequence.
The output is descending in the ECMAScript comparator order, in which a
NaN timestamp (a truthy but unparseable value) ties with everything:
adjacent entries never ascend, and when no retained timestamp is NaN the
output is genuinely sorted descending by timestamp. -/
theorem C6_aggregator_amended :
    ∀ data : JSVal,
      (validateAlertData data).length ≤ 10 ∧
      List.Chain' (fun a b => alertBefore a b = true) (validateAlertData data) ∧
      (∀ a ∈ validateAlertData data,
        ∃ v ∈ valuesOf data, alertKeep v = true ∧ a = mkAlert v) ∧
      (isRecord data = false → validateAlertData data = []) ∧
      ((∀ a ∈ validateAlertData data, a.timestamp ≠ .nan) →
        (validateAlertData data).Pairwise
          (fun a b => JNum.ltb a.timestamp b.timestamp = false)) := by
  have hnr : ∀ v : JSVal, isRecord v = false → validateAlertData v = [] := by
    intro v hv
    cases v <;> simp_all [validateAlertData, isRecord, jsTypeofObject, truthy]
  intro data
  cases hrec : isRecord data with
  | false =>
    rw [hnr data hrec]
    refine ⟨by simp, List.chain'_nil, by simp, fun _ => rfl, by simp⟩
  | true =>
    cases data with
    | obj fields =>
      have hout : validateAlertData (.obj fields) =
          (sortAlerts
            (((fields.map Prod.snd).filter alertKeep).map mkAlert)).take 10 := rfl
      have hchainfull : List.Chain' (fun a b => alertBefore a b = true)
          (sortAlerts (((fields.map Prod.snd).filter alertKeep).map mkAlert)) :=
        chain'_msortFuel alertBefore alertBefore_total _ _ (le_refl _)
      have hchain : List.Chain' (fun a b => alertBefore a b = true)
          (validateAlertData (.obj fields)) := by
        rw [hout]
        exact hchainfull.take 10
      refine ⟨?_, hchain, ?_, ?_, ?_⟩
      · rw [hout, List.length_take]
        exact inf_le_left
      · intro a ha
        rw [hout] at ha
        have ha2 := (List.take_sublist 10 _).subset ha
        have ha3 := mem_msortFuel alertBefore _ _ a ha2
        obtain ⟨v, hv, hva⟩ := List.mem_map.mp ha3
        have hv2 := List.mem_filter.mp hv
        exact ⟨v, by simpa [valuesOf] using hv2.1, hv2.2, hva.symm⟩
      · intro hfalse
        rw [hfalse] at hrec
        cases hrec
      · intro hnn
        have hpw := chain'_to_pairwise_alert _ hnn hchain
        refine hpw.imp_of_mem ?_
        intro a b ha hb hab
        exact alertBefore_not_lt a b (hnn a ha) (hnn b hb) hab
    | null => simp [isRecord] at hrec
    | undefined => simp [isRecord] at hrec
    | bool b => simp [isRecord] at hrec
    | num n => simp [isRecord] at hrec
    | str s => simp [isRecord] at hrec

/-- An all-finite batch used by the C6 witness. -/
def finiteAlertBatch : JSVal :=
  .obj [
    ("k1", .obj [("type", .str "A"), ("message", .str "m1"),
      ("timestamp", .num (.fin 3))]),
    ("k2", .obj [("type", .str "B"), ("message", .str "m2"),
      ("timestamp", .num (.fin 7))]),
    ("k3", .obj [("type", .str "C"), ("message", .str "m3"),
      ("timestamp", .num (.fin 5))]),
    ("k4", .obj [("type", .str "D"), ("message", .str "m4")])]

/-- Witness for C6 at a concrete batch with all-finite timestamps and at
a non-record input. -/
theorem C6_aggregator_amended_witness :
    (validateAlertData finiteAlertBatch).length ≤ 10 ∧
    List.Chain' (fun a b => alertBefore a b = true)
      (validateAlertData finiteAlertBatch) ∧
    validateAlertData (.str "zap") = [] ∧
    (validateAlertData finiteAlertBatch).Pairwise
      (fun a b => JNum.ltb a.timestamp b.timestamp = false) := by
  have h1 := C6_aggregator_amended finiteAlertBatch
  have h2 := C6_aggregator_amended (.str "zap")
  exact ⟨h1.1, h1.2.1, h2.2.2.2.1 (by decide), h1.2.2.2.2 (by decide)⟩

end SmartSocket
